import Mathlib

/-!
Verification of the execution racing engine of the reclient build proxy
(`internal/pkg/reproxy/action.go`).  The Go source is shallowly embedded:
pure helpers become Lean functions, stateful code becomes explicit state
passing, machine integers become `Int`/`Nat`, Go `error` values become an
explicit error type, and the concurrent race coordinator is modelled as a
pure function over the sequence of channel/cancellation events it observes.
-/

namespace Reclient

/-- Go `error` values, as far as the embedded code inspects them: the only
inspection the source performs is `errors.Is(err, context.Canceled)`
(action.go line 425), so an error is either the context-cancellation error
or some other error identified by a code. -/
inductive GoError
  | ctxCanceled
  | other (code : Nat)
  deriving DecidableEq, Repr

/-- Result statuses of the remote-apis-sdks `command` package used by
action.go (spec section 3: `success | non_zero_exit | local_error |
remote_error | interrupted | timeout | cache_hit`). -/
inductive ResultStatus
  | success
  | nonZeroExit
  | localError
  | remoteError
  | interrupted
  | timeout
  | cacheHit
  deriving DecidableEq, Repr

/-- The `command.Result` triple `{exit_code, err, status}` of the
remote-apis-sdks `command` package. -/
structure Result where
  exitCode : Int
  status : ResultStatus
  err : Option GoError
  deriving DecidableEq, Repr

/-- Exit code used by `command.NewLocalErrorResult` in the
remote-apis-sdks `command` package (its exact numeric value is irrelevant
to every claim). -/
def localErrorExitCode : Int := 35

/-- `command.NewResultFromExitCode`: success status on exit code 0,
non-zero-exit otherwise, never an error. -/
def NewResultFromExitCode (e : Int) : Result :=
  ⟨e, if e = 0 then ResultStatus.success else ResultStatus.nonZeroExit, none⟩

/-- `command.NewLocalErrorResult(err)`: a local-error result carrying the
given error. -/
def NewLocalErrorResult (e : GoError) : Result :=
  ⟨localErrorExitCode, ResultStatus.localError, some e⟩

/-- `command.Result.IsOk()`: a result is ok when it has no error
(spec section 3). -/
def Result.isOk (r : Result) : Bool := r.err.isNone

/-! ## Path utilities (action.go lines 185-216)

`depth` iterates over the bytes of the path and counts those for which
`os.IsPathSeparator` holds. `os.IsPathSeparator` is OS-dependent: on
Windows builds it accepts both `/` and `\`, on POSIX builds only `/`.
The embedding is therefore parameterised by a flag `win` selecting the
build.  Counting characters instead of bytes is faithful because the two
separators are ASCII and UTF-8 continuation bytes can never equal them. -/

/-- `os.IsPathSeparator` of the Go standard library: on a Windows build
(`win = true`) both `/` and `\` are separators, on a POSIX build only
`/` is. -/
def isPathSep (win : Bool) (c : Char) : Bool :=
  c = '/' || (win && c = '\\')

/-- `depth` (action.go lines 188-199): 0 for the empty string, otherwise a
counter started at 1 and incremented for every separator byte. -/
def depth (win : Bool) (path : String) : Nat :=
  if path = "" then 0
  else path.data.foldl (fun d c => if isPathSep win c then d + 1 else d) 1

theorem depth_foldl_eq (win : Bool) (l : List Char) (init : Nat) :
    l.foldl (fun d c => if isPathSep win c then d + 1 else d) init
      = init + l.countP (isPathSep win) := by
  induction l generalizing init with
  | nil => simp
  | cons c cs ih =>
    simp only [List.foldl_cons, List.countP_cons, ih]
    by_cases h : isPathSep win c = true
    · simp [h]; omega
    · simp [h]

theorem depth_eq_one_add_countP (win : Bool) (path : String) (h : path ≠ "") :
    depth win path = 1 + path.data.countP (isPathSep win) := by
  rw [depth, if_neg h, depth_foldl_eq]

/-! The segment-splitting view of paths used to state and prove facts
about `toRemoteWorkingDir`.  `splitSegs` splits a character list at `/`
(the POSIX separator). -/

/-- Helper of `splitSegs`: `acc` is the reversed current segment. -/
def splitSegsAux : List Char → List Char → List (List Char)
  | [], acc => [acc.reverse]
  | c :: cs, acc =>
    if c = '/' then acc.reverse :: splitSegsAux cs []
    else splitSegsAux cs (c :: acc)

/-- Split a character list into its `/`-separated segments. -/
def splitSegs (cs : List Char) : List (List Char) := splitSegsAux cs []

theorem splitSegsAux_append_sep (seg rest acc : List Char)
    (h : '/' ∉ seg) :
    splitSegsAux (seg ++ '/' :: rest) acc
      = (acc.reverse ++ seg) :: splitSegsAux rest [] := by
  induction seg generalizing acc with
  | nil => simp [splitSegsAux]
  | cons c s ih =>
    have hc : ¬(c = '/') := fun he => h (by simp [he])
    have hs : '/' ∉ s := fun hm => h (List.mem_cons_of_mem _ hm)
    simp only [List.cons_append, splitSegsAux, if_neg hc]
    rw [show splitSegsAux (List.append s ('/' :: rest)) (c :: acc)
          = splitSegsAux (s ++ '/' :: rest) (c :: acc) from rfl,
        ih (c :: acc) hs]
    simp

theorem splitSegsAux_no_sep (seg acc : List Char) (h : '/' ∉ seg) :
    splitSegsAux seg acc = [acc.reverse ++ seg] := by
  induction seg generalizing acc with
  | nil => simp [splitSegsAux]
  | cons c s ih =>
    have hc : ¬(c = '/') := fun he => h (by simp [he])
    have hs : '/' ∉ s := fun hm => h (List.mem_cons_of_mem _ hm)
    simp only [splitSegsAux, if_neg hc]
    rw [ih (c :: acc) hs]
    simp

/-- Character suffix `/a/a/.../a` with `n` repetitions of `/a`. -/
def slashA : Nat → List Char
  | 0 => []
  | n + 1 => '/' :: 'a' :: slashA n

theorem splitSegs_append_slashA (n : Nat) (x : List Char) (hx : '/' ∉ x) :
    splitSegs (x ++ slashA n) = x :: List.replicate n ['a'] := by
  induction n generalizing x with
  | zero =>
    rw [slashA, List.append_nil, splitSegs, splitSegsAux_no_sep _ _ hx]
    simp [List.replicate]
  | succ n ih =>
    have : x ++ slashA (n + 1) = x ++ '/' :: ('a' :: slashA n) := rfl
    rw [this, splitSegs, splitSegsAux_append_sep _ _ _ hx]
    have ha : '/' ∉ ['a'] := by decide
    have := ih ['a'] ha
    rw [splitSegs] at this
    simp only [List.reverse_nil, List.nil_append]
    rw [show ('a' :: slashA n) = ['a'] ++ slashA n from rfl, this]
    simp [List.replicate]

theorem countP_slashA (win : Bool) (n : Nat) :
    (slashA n).countP (isPathSep win) = n := by
  induction n with
  | zero => simp [slashA]
  | succ n ih =>
    have h1 : isPathSep win '/' = true := by cases win <;> decide
    have h2 : isPathSep win 'a' = false := by cases win <;> decide
    simp [slashA, List.countP_cons, h1, h2, ih]

/-! ## Model of `path/filepath.Clean` and `path/filepath.Join` (POSIX build)

`toRemoteWorkingDir` (action.go lines 205-216) calls `filepath.Clean` and
`filepath.Join` of the Go standard library.  They are modelled here for
the POSIX build in the standard segment form: split at `/`, drop empty
and `.` segments, resolve `..` against the preceding segment (with the
rooted rule), and rejoin.  This is extensionally the lazybuf algorithm of
the Go source. -/

/-- Backtracking step of `filepath.Clean` on a `..` segment: pop the
preceding kept segment unless there is none (then keep `..` when not
rooted) or it is itself a `..`. -/
def popDotDot (rooted : Bool) (acc : List (List Char)) : List (List Char) :=
  match acc with
  | [] => if rooted then [] else [['.', '.']]
  | t :: ts => if t = ['.', '.'] then ['.', '.'] :: t :: ts else ts

/-- Dot-segment resolution of `filepath.Clean`: `acc` holds the kept
segments in reverse order. -/
def cleanStack (rooted : Bool) : List (List Char) → List (List Char) → List (List Char)
  | acc, [] => acc.reverse
  | acc, s :: rest =>
    if s = [] || s = ['.'] then cleanStack rooted acc rest
    else if s = ['.', '.'] then cleanStack rooted (popDotDot rooted acc) rest
    else cleanStack rooted (s :: acc) rest

theorem cleanStack_no_dots (rooted : Bool) (segs acc : List (List Char))
    (h : ∀ s ∈ segs, s ≠ [] ∧ s ≠ ['.'] ∧ s ≠ ['.', '.']) :
    cleanStack rooted acc segs = acc.reverse ++ segs := by
  induction segs generalizing acc with
  | nil => simp [cleanStack]
  | cons s rest ih =>
    obtain ⟨h1, h2, h3⟩ := h s (List.mem_cons_self s rest)
    have hrest : ∀ t ∈ rest, t ≠ [] ∧ t ≠ ['.'] ∧ t ≠ ['.', '.'] :=
      fun t ht => h t (List.mem_cons_of_mem _ ht)
    have hb : (s = [] || s = ['.']) = false := by
      simp [h1, h2]
    rw [cleanStack, hb]
    simp only [Bool.false_eq_true, if_false, if_neg h3]
    rw [ih (s :: acc) hrest]
    simp

/-- `strings.Join` at the character-list level (used by the
`filepath.Join` model). -/
def interJoin (sep : List Char) : List (List Char) → List Char
  | [] => []
  | [x] => x
  | x :: y :: rest => x ++ sep ++ interJoin sep (y :: rest)

theorem interJoin_replicate (n : Nat) (x : List Char) :
    interJoin ['/'] (x :: List.replicate n ['a']) = x ++ slashA n := by
  induction n generalizing x with
  | zero => simp [interJoin, slashA]
  | succ n ih =>
    rw [List.replicate, interJoin, ih ['a']]
    simp [slashA]

/-- Character-level core of the `filepath.Clean` model. -/
def cleanChars (l : List Char) : List Char :=
  if l = [] then ['.']
  else
    let rooted := l.head? == some '/'
    let segs := cleanStack rooted [] (splitSegs l)
    let out := (if rooted then ['/'] else []) ++ interJoin ['/'] segs
    if out = [] then ['.'] else out

/-- `filepath.Clean` of the Go standard library, POSIX build. -/
def cleanPath (s : String) : String := String.mk (cleanChars s.data)

theorem cleanChars_ne_nil (l : List Char) : cleanChars l ≠ [] := by
  rw [cleanChars]
  by_cases h : l = []
  · simp [h]
  · rw [if_neg h]
    show (if _ = ([] : List Char) then ['.'] else _) ≠ []
    by_cases ho :
        ((if l.head? == some '/' then ['/'] else []) ++
          interJoin ['/'] (cleanStack (l.head? == some '/') []
            (splitSegs l))) = []
    · rw [if_pos ho]
      decide
    · rw [if_neg ho]
      exact ho

theorem cleanPath_ne_empty (s : String) : cleanPath s ≠ "" := by
  intro h
  exact cleanChars_ne_nil s.data (congrArg String.data h)

/-- `filepath.Join` of the Go standard library, POSIX build: drop empty
elements, join the rest with `/`, and clean the result. -/
def joinPath (elems : List String) : String :=
  let ne := elems.filter (fun e => !(e == ""))
  if ne = [] then ""
  else cleanPath (String.mk (interJoin ['/'] (ne.map String.data)))

/-- `toRemoteWorkingDir` (action.go lines 205-216): empty and `.` pass
through; otherwise build a slice of `depth false (cleanPath workingDir)`
segments whose head is `set_by_reclient` and whose remaining entries are
`a`, and join them.  (`depth false` and the POSIX `cleanPath`/`joinPath`
model the POSIX build; the Go `make`/index-assignment loop producing
`elem` is rendered as `"set_by_reclient" :: List.replicate (dirDepth - 1)
"a"`, which agrees with it because `dirDepth ≥ 1` for every cleaned
path.) -/
def toRemoteWorkingDir (workingDir : String) : String :=
  if workingDir = "" ∨ workingDir = "." then workingDir
  else
    let dirDepth := depth false (cleanPath workingDir)
    joinPath ("set_by_reclient" :: List.replicate (dirDepth - 1) "a")

theorem sbr_no_sep : '/' ∉ "set_by_reclient".data := by decide

theorem cleanChars_canonical (n : Nat) :
    cleanChars ("set_by_reclient".data ++ slashA n)
      = "set_by_reclient".data ++ slashA n := by
  have hsbr : "set_by_reclient".data ≠ [] := by decide
  have hne : "set_by_reclient".data ++ slashA n ≠ [] := by
    intro h
    rcases List.append_eq_nil.mp h with ⟨h1, _⟩
    exact hsbr h1
  have hhead : ("set_by_reclient".data ++ slashA n).head? = some 's' := by
    have h15 : "set_by_reclient".data = 's' :: "et_by_reclient".data := by decide
    rw [h15]
    rfl
  have hrooted : (("set_by_reclient".data ++ slashA n).head? == some '/') = false := by
    rw [hhead]
    decide
  have hsegs : splitSegs ("set_by_reclient".data ++ slashA n)
      = "set_by_reclient".data :: List.replicate n ['a'] :=
    splitSegs_append_slashA n _ sbr_no_sep
  have hnodots : ∀ s ∈ "set_by_reclient".data :: List.replicate n ['a'],
      s ≠ [] ∧ s ≠ ['.'] ∧ s ≠ ['.', '.'] := by
    intro s hs
    rcases List.mem_cons.mp hs with h | h
    · subst h
      refine ⟨by decide, by decide, by decide⟩
    · rw [List.eq_of_mem_replicate h]
      refine ⟨by decide, by decide, by decide⟩
  rw [cleanChars, if_neg hne, hrooted]
  simp only [Bool.false_eq_true, if_false, List.nil_append]
  rw [hsegs, cleanStack_no_dots _ _ _ hnodots]
  simp only [List.reverse_nil, List.nil_append]
  rw [interJoin_replicate]
  rw [if_neg hne]

theorem depth_mk (l : List Char) (h : l ≠ []) :
    depth false (String.mk l) = 1 + l.countP (isPathSep false) := by
  have hne : String.mk l ≠ "" := by
    intro hcontra
    exact h (congrArg String.data hcontra)
  rw [depth_eq_one_add_countP false (String.mk l) hne]

theorem depth_canonical (n : Nat) :
    depth false (String.mk ("set_by_reclient".data ++ slashA n)) = n + 1 := by
  have hsbr : "set_by_reclient".data ≠ [] := by decide
  have hne : "set_by_reclient".data ++ slashA n ≠ [] := by
    intro h
    rcases List.append_eq_nil.mp h with ⟨h1, _⟩
    exact hsbr h1
  rw [depth_mk _ hne, List.countP_append, countP_slashA]
  have hz : ("set_by_reclient".data).countP (isPathSep false) = 0 := by decide
  rw [hz]
  omega

theorem depth_cleanPath_pos (w : String) : 1 ≤ depth false (cleanPath w) := by
  have h := cleanPath_ne_empty w
  rw [depth_eq_one_add_countP false _ h]
  omega

theorem toRemoteWorkingDir_closed_form (w : String) (h : ¬(w = "" ∨ w = ".")) :
    toRemoteWorkingDir w
      = String.mk ("set_by_reclient".data
          ++ slashA (depth false (cleanPath w) - 1)) := by
  rw [toRemoteWorkingDir, if_neg h]
  have hkeep : (("set_by_reclient" :: List.replicate (depth false (cleanPath w) - 1) "a").filter
      (fun e => !(e == ""))) = "set_by_reclient" :: List.replicate (depth false (cleanPath w) - 1) "a" := by
    rw [List.filter_cons]
    have h1 : (!("set_by_reclient" == "")) = true := by decide
    have h2 : ∀ m : Nat, (List.replicate m "a").filter (fun e => !(e == "")) = List.replicate m "a" := by
      intro m
      induction m with
      | zero => rfl
      | succ m ih =>
        rw [List.replicate, List.filter_cons]
        have ha : (!("a" == "")) = true := by decide
        rw [ha, ih]
        simp
    rw [h1, h2]
    simp
  rw [joinPath]
  simp only [hkeep]
  have hcons : ("set_by_reclient" :: List.replicate (depth false (cleanPath w) - 1) "a")
      ≠ ([] : List String) := by simp
  rw [if_neg hcons]
  have hmap : ("set_by_reclient" :: List.replicate (depth false (cleanPath w) - 1) "a").map String.data
      = "set_by_reclient".data :: List.replicate (depth false (cleanPath w) - 1) ['a'] := by
    rw [List.map_cons, List.map_replicate]
  rw [hmap, interJoin_replicate]
  show String.mk (cleanChars ("set_by_reclient".data ++ slashA (depth false (cleanPath w) - 1)))
      = _
  rw [cleanChars_canonical]

/-! ## Adaptive holdoff (action.go lines 371-388)

Durations are Go `time.Duration` values: `Int` nanoseconds.
`Duration.Milliseconds()` is integer division by `10^6` truncating toward
zero.  `racingBias` is a Go `float64`; float arithmetic is modelled as
exact rational arithmetic, and the `time.Duration(float64value)`
conversion as truncation toward zero — exact for the bias values `0`,
`0.5` and `1` singled out by the spec. -/

/-- `time.Duration.Milliseconds()`: nanoseconds divided by `10^6`,
truncating toward zero. -/
def goMilliseconds (d : Int) : Int := d.tdiv 1000000

/-- Go conversion of a float to an integer type: truncation toward
zero (here on the exact rational value). -/
def ratTrunc (q : ℚ) : Int := q.num.tdiv (q.den : Int)

/-- Holdoff computation of the race cache-hit path (action.go lines
373-384): on a forecast error use `maxHoldoff` as the forecast `dl`; the
sleep is `Duration(float64(dl.Milliseconds()) * (racingBias*2)) *
time.Millisecond`, clamped to at most `maxHoldoff`. -/
def raceHoldoff (forecastDl : Except GoError Int) (maxHoldoff : Int)
    (racingBias : ℚ) : Int :=
  let dl : Int :=
    match forecastDl with
    | Except.error _ => maxHoldoff
    | Except.ok d => d
  let sl : Int := ratTrunc ((goMilliseconds dl : ℚ) * (racingBias * 2)) * 1000000
  if sl > maxHoldoff then maxHoldoff else sl

theorem ratTrunc_intCast (m : Int) : ratTrunc ((m : ℤ) : ℚ) = m := by
  rw [ratTrunc, Rat.num_intCast, Rat.den_intCast]
  exact Int.tdiv_one m

theorem clamp_eq_min (sl mh : Int) : (if sl > mh then mh else sl) = min sl mh := by
  by_cases hgt : mh < sl
  · rw [if_pos hgt, min_eq_right (le_of_lt hgt)]
  · rw [if_neg hgt, min_eq_left (not_lt.mp hgt)]

theorem raceHoldoff_ok (dl mh : Int) (bias : ℚ) :
    raceHoldoff (Except.ok dl) mh bias
      = min (ratTrunc ((goMilliseconds dl : ℚ) * (bias * 2)) * 1000000) mh := by
  rw [raceHoldoff, clamp_eq_min]

theorem raceHoldoff_err (e : GoError) (mh : Int) (bias : ℚ) :
    raceHoldoff (Except.error e) mh bias
      = min (ratTrunc ((goMilliseconds mh : ℚ) * (bias * 2)) * 1000000) mh := by
  rw [raceHoldoff, clamp_eq_min]

/-! ## The race coordinator (action.go lines 218-334)

The concurrent coordinator is embedded as a pure function over the events
it observes.  The first event is whichever of the two result-channel
sends or the parent-context cancellation the outer `select` (lines
272-285) sees first; when the coordinator then waits for the second path
(lines 289-307), the second event is whichever of the remaining channel
send or the parent cancellation arrives first.  `ctx.Err()` of a
cancelled parent context is modelled as the error carried by the
cancellation event. -/

/-- `resultType` (action.go lines 218-224).  The Go constant `local` is a
Lean keyword and is rendered `localExec`. -/
inductive resultType
  | remote
  | localExec
  | canceled
  deriving DecidableEq, Repr

/-- `raceResult` (action.go lines 226-230): result, captured output
sink (identified by a number) and kind. -/
structure raceResult where
  res : Option Result
  oe : Option Nat
  t : resultType
  deriving DecidableEq, Repr

/-- An event observed by a `select` of the coordinator: a result arriving
on the race channel, or the parent scope being cancelled. -/
inductive raceEvent
  | outcome (rr : raceResult)
  | parentDone (e : GoError)
  deriving DecidableEq, Repr

/-- Observable state of the action when `race` returns: the assigned
result (`none` when the code assigns none), the fallback counter, whether
the coordinator consumed a second event before finalizing, the final
winner (`none` on the early-return paths), and the final output sink. -/
structure raceFinal where
  res : Option Result
  numFallbacks : Int
  consumedSecond : Bool
  winner : Option raceResult
  oe : Option Nat
  deriving DecidableEq, Repr

/-- Finalization (action.go lines 308-334): a remote winner moves staged
outputs (failure is a local-error early return before `a.oe` is updated,
modelled by `oe := none`), a local winner keeps `a.res` as set by
`runLocalRace` (equal to `winner.res`), a cancelled winner assigns
`winner.res` (which may be `none`). -/
def finalizeRace (nf : Int) (w : raceResult) (moveErr : Option GoError)
    (consumed : Bool) : raceFinal :=
  if w.t = resultType.remote then
    match moveErr with
    | some e => ⟨some (NewLocalErrorResult e), nf, consumed, some w, none⟩
    | none => ⟨w.res, nf, consumed, some w, w.oe⟩
  else ⟨w.res, nf, consumed, some w, w.oe⟩

/-- The race coordinator (action.go lines 271-334) over its observed
events: the first `select` (272-285), the second-result drain (289-307)
with its fallback count (294-296) and local promotion (297-300), and
finalization. -/
def race (nf : Int) (e1 e2 : raceEvent) (moveErr : Option GoError) : raceFinal :=
  match e1 with
  | raceEvent.parentDone e => ⟨some (NewLocalErrorResult e), nf, false, none, none⟩
  | raceEvent.outcome w =>
    if w.t = resultType.remote ∨ w.t = resultType.canceled then
      match e2 with
      | raceEvent.parentDone e => ⟨some (NewLocalErrorResult e), nf, true, none, none⟩
      | raceEvent.outcome rr =>
        let nf' := if w.t = resultType.canceled ∧ rr.t = resultType.localExec
          then nf + 1 else nf
        let w' := if rr.t = resultType.localExec then rr else w
        finalizeRace nf' w' moveErr true
    else finalizeRace nf w moveErr false

/-! ## The remote attempt of the race (action.go lines 338-414)

External effects are supplied as an environment: the outcome of
`client.NewContext`, the execution-context result after
`GetCachedResult` (nil on a cache miss), the result after
`ExecuteRemotely`, whether the sibling-cancel scope `cCtx` was already
done at each of its two polls, and the result left in the context by
`DownloadOutputs`. -/

/-- Environment of one `runRemoteRace` run. -/
structure remoteRaceEnv where
  newContextErr : Option GoError
  cachedResult : Option Result
  execResult : Result
  cCtxDoneAfterExec : Bool
  cCtxDoneAfterDownload : Bool
  downloadResult : Result
  oeSink : Nat
  deriving DecidableEq, Repr

/-- Common tail of `runRemoteRace` from line 392 (`res :=
a.execContext.Result` was stored just before): the not-ok check (393-397),
`DownloadOutputs` with the `cCtx` poll (399-405), the download-failure
check (406-409) and the remote return (413). -/
def remoteRaceAfterRes (res : Result) (env : remoteRaceEnv) : raceResult :=
  if !res.isOk then ⟨some res, none, resultType.canceled⟩
  else if env.cCtxDoneAfterDownload then ⟨none, none, resultType.canceled⟩
  else if !env.downloadResult.isOk then
    ⟨some env.downloadResult, some env.oeSink, resultType.canceled⟩
  else ⟨some env.downloadResult, some env.oeSink, resultType.remote⟩

/-- `runRemoteRace` (action.go lines 338-414): context-creation failure
returns `canceled` with a local-error (352-356); a cache miss closes the
local-start gate, executes remotely and polls `cCtx` (358-369); a cache
hit starts the holdoff timer (371-389, the timer's sleep is
`raceHoldoff`); then the common tail runs on the stored result. -/
def runRemoteRace (env : remoteRaceEnv) : raceResult :=
  match env.newContextErr with
  | some e => ⟨some (NewLocalErrorResult e), none, resultType.canceled⟩
  | none =>
    match env.cachedResult with
    | none =>
      if env.cCtxDoneAfterExec then ⟨none, none, resultType.canceled⟩
      else remoteRaceAfterRes env.execResult env
    | some res => remoteRaceAfterRes res env

/-! ## The local attempt of the race (action.go lines 420-444) -/

/-- Observable state of the action after `runLocalRace`: the returned
`raceResult`, the action result field `a.res`, and the
`LocalMetadata.ExecutedLocally` flag (both unchanged on the two
`canceled` early returns). -/
structure localRaceOut where
  rr : raceResult
  res : Option Result
  executedLocally : Bool
  deriving DecidableEq, Repr

/-- `runLocalRace` (action.go lines 420-444): a pool error equal to
`context.Canceled` yields `canceled` with no result (425-428); exit code
0 with any other non-nil error yields `canceled` carrying a local-error
result (429-432); otherwise the local run counts, `a.res` is set from the
exit code and `ExecutedLocally` is set (436-443). -/
def runLocalRace (prevRes : Option Result) (prevExecutedLocally : Bool)
    (exitCode : Int) (runErr : Option GoError) (oeSink : Nat) : localRaceOut :=
  if runErr = some GoError.ctxCanceled then
    ⟨⟨none, none, resultType.canceled⟩, prevRes, prevExecutedLocally⟩
  else
    match runErr with
    | some e =>
      if exitCode = 0 then
        ⟨⟨some (NewLocalErrorResult e), none, resultType.canceled⟩,
          prevRes, prevExecutedLocally⟩
      else
        ⟨⟨some (NewResultFromExitCode exitCode), some oeSink, resultType.localExec⟩,
          some (NewResultFromExitCode exitCode), true⟩
    | none =>
      ⟨⟨some (NewResultFromExitCode exitCode), some oeSink, resultType.localExec⟩,
        some (NewResultFromExitCode exitCode), true⟩

/-! ## Cached-result consumption with deps validation
(action.go lines 577-595 and 730-744) -/

/-- Error built by line 591 (`fmt.Errorf("%v failed deps validation",
...)`). -/
def depsValidationError : GoError := GoError.other 1

/-- `cachedResultValid` (action.go lines 730-744): valid when no
dependency file was stored; otherwise `VerifyDepsFile` must succeed
without error and report a match. -/
def cachedResultValid (dFile : String) (verifyOk : Bool)
    (verifyErr : Option GoError) : Bool :=
  if dFile = "" then true
  else if verifyErr.isSome then false
  else verifyOk

/-- Observable state after `getCachedResult`: the action result, the
`RemoteMetadata.CacheHit` flag and the `LocalMetadata.ValidCacheHit`
flag. -/
structure cachedOutcome where
  res : Option Result
  cacheHit : Bool
  validCacheHit : Bool
  deriving DecidableEq, Repr

/-- `getCachedResult` (action.go lines 577-595) for an action with an
execution context: `a.res` is set to the context result; a nil or not-ok
result returns with no cache-hit flags; an ok result sets `CacheHit`, and
either passes validation (setting `ValidCacheHit`) or replaces `a.res`
with a local-error result. -/
def getCachedResult (ecResult : Option Result) (dFile : String)
    (verifyOk : Bool) (verifyErr : Option GoError) : cachedOutcome :=
  match ecResult with
  | none => ⟨none, false, false⟩
  | some r =>
    if !r.isOk then ⟨some r, false, false⟩
    else if cachedResultValid dFile verifyOk verifyErr then ⟨some r, true, true⟩
    else ⟨some (NewLocalErrorResult depsValidationError), true, false⟩

/-! ## Mtime restoration (action.go lines 488-511)

The filesystem is a map from an output path (relative to the absolute
working directory, the key form used by `getPreExecOutsInfo`) to its
mtime; the file-metadata cache maps the same paths to metadata.
`GetOutputFileDigests` either fails or yields an association list whose
order is the Go map iteration order. -/

/-- Relevant fields of `filemetadata.Metadata`. -/
structure fmMeta where
  digest : Nat
  mtimeV : Int
  isDir : Bool
  deriving DecidableEq, Repr

/-- Pointwise update of a string-keyed map. -/
def updMap {α : Type} (m : String → α) (k : String) (v : α) : String → α :=
  fun p => if p = k then v else m p

/-- Loop body of `restoreUnchangedOutputMtimes` (action.go lines
493-509): for each output with a matching pre-exec digest, `os.Chtimes`
restores the mtime — on failure the function logs and returns `nil`,
abandoning the remaining outputs — and the file-metadata cache entry gets
the pre-exec digest and mtime (an `fmc.Update` failure is logged and the
loop continues). -/
def restoreLoop (preExec : List (String × fmMeta)) (chtimesFails : String → Bool)
    (updateFails : String → Bool) :
    List (String × Nat) → (String → Int) → (String → fmMeta) →
      (String → Int) × (String → fmMeta) × Option GoError
  | [], fs, fmc => (fs, fmc, none)
  | (out, d) :: rest, fs, fmc =>
    match (preExec.find? (fun p => p.1 == out)).map Prod.snd with
    | some fInfo =>
      if fInfo.digest = d then
        if chtimesFails out then (fs, fmc, none)
        else
          let fs' := updMap fs out fInfo.mtimeV
          let m := fmc out
          let m' : fmMeta := ⟨fInfo.digest, fInfo.mtimeV, m.isDir⟩
          let fmc' := if updateFails out then fmc else updMap fmc out m'
          restoreLoop preExec chtimesFails updateFails rest fs' fmc'
      else restoreLoop preExec chtimesFails updateFails rest fs fmc
    | none => restoreLoop preExec chtimesFails updateFails rest fs fmc

/-- `restoreUnchangedOutputMtimes` (action.go lines 488-511): a
`GetOutputFileDigests` failure returns an error without touching
anything; otherwise the restore loop runs over the reported digests. -/
def restoreUnchangedOutputMtimes (preExec : List (String × fmMeta))
    (outDigests : Except GoError (List (String × Nat)))
    (chtimesFails : String → Bool) (updateFails : String → Bool)
    (fs : String → Int) (fmc : String → fmMeta) :
    (String → Int) × (String → fmMeta) × Option GoError :=
  match outDigests with
  | Except.error e => (fs, fmc, some e)
  | Except.ok outs => restoreLoop preExec chtimesFails updateFails outs fs fmc

/-! ## Duplication for compare mode (action.go lines 821-868)

Go pointer aliasing is made explicit with a heap: locations are naturals,
allocation bumps a counter, and the pointer-typed fields of an action
hold locations.  `duplicate` gives every copy a fresh value copy of
`*a.cmd`, `*a.forecast`, `*a.rOpt` and `*a.lOpt`, a fresh log record
seeded from the original record's environment and labels with a new
proxy-execution event time, and a fresh recording out/err sink; the
remaining (scalar) action fields are copied by `*newAction = *a`. -/

/-- Value of a `command.Command` (fields beyond these are irrelevant to
the aliasing claims). -/
structure CmdVal where
  args : List String
  workingDir : String
  deriving DecidableEq, Repr

/-- Value of a `Forecast`. -/
structure ForecastVal where
  payload : Nat
  deriving DecidableEq, Repr

/-- Value of a `logger.LogRecord`: the `LocalMetadata` environment, the
labels map reference (maps are themselves references in Go) and the
event-times list. -/
structure RecVal where
  environment : List String
  labelsRef : Nat
  eventTimes : List (String × Int)
  deriving DecidableEq, Repr

/-- Value of a `RemoteExecutionOptions` or `LocalExecutionOptions`
message. -/
structure OptVal where
  payload : Nat
  deriving DecidableEq, Repr

/-- Value of an `outerr.OutErr` recording sink. -/
structure OEVal where
  stdoutLines : List String
  stderrLines : List String
  deriving DecidableEq, Repr

/-- A heap cell. -/
inductive HVal
  | cmdV (v : CmdVal)
  | forecastV (v : ForecastVal)
  | recV (v : RecVal)
  | rOptV (v : OptVal)
  | lOptV (v : OptVal)
  | oeV (v : OEVal)
  | undef
  deriving DecidableEq, Repr

/-- The heap: an allocation bound and the cell contents. -/
structure Heap where
  next : Nat
  mem : Nat → HVal

/-- Write a heap cell in place (a Go mutation through a pointer). -/
def Heap.write (h : Heap) (a : Nat) (v : HVal) : Heap :=
  ⟨h.next, fun b => if b = a then v else h.mem b⟩

/-- The pointer-typed fields of an `action` as heap locations, plus a
representative scalar field copied by `*newAction = *a`.  The Go field
names `rec` and `oe` gain an `L` suffix because `rec` collides with the
Lean recursor name. -/
structure ActionM where
  cmdL : Nat
  forecastL : Nat
  recL : Nat
  rOptL : Nat
  lOptL : Nat
  oeL : Nat
  compareFlag : Bool
  deriving DecidableEq, Repr

/-- Name of the `logger.EventProxyExecution` event key. -/
def eventProxyExecution : String := "ProxyExecution"

/-- Read a log-record cell (the Go type system guarantees the cell holds
a record). -/
def recValOf : HVal → RecVal
  | HVal.recV v => v
  | _ => ⟨[], 0, []⟩

/-- One iteration of the `duplicate` loop (action.go lines 827-865): six
fresh cells are allocated at `h.next .. h.next+5` holding, in order, the
value copies `tcmd = *(a.cmd)` and `tforecast = *(a.forecast)`, the fresh
record `trec` (a new record whose local metadata keeps the original's
environment and labels and whose event times hold a fresh
proxy-execution start), the value copies `trOpt` and `tlOpt`, and the
fresh recording sink; the new action is `*a` with its pointer fields
redirected to the fresh cells. -/
def dupOne (a : ActionM) (now : Int) (h : Heap) : ActionM × Heap :=
  let orv := recValOf (h.mem a.recL)
  let newRec : RecVal := ⟨orv.environment, orv.labelsRef, [(eventProxyExecution, now)]⟩
  let d : ActionM :=
    ⟨h.next, h.next + 1, h.next + 2, h.next + 3, h.next + 4, h.next + 5, a.compareFlag⟩
  let mem' : Nat → HVal := fun addr =>
    if addr = h.next then h.mem a.cmdL
    else if addr = h.next + 1 then h.mem a.forecastL
    else if addr = h.next + 2 then HVal.recV newRec
    else if addr = h.next + 3 then h.mem a.rOptL
    else if addr = h.next + 4 then h.mem a.lOptL
    else if addr = h.next + 5 then HVal.oeV ⟨[], []⟩
    else h.mem addr
  (d, ⟨h.next + 6, mem'⟩)

/-- `duplicate` (action.go lines 821-868): run the loop body `n` times,
collecting the new actions in creation order. -/
def duplicate (a : ActionM) (now : Int) : Nat → Heap → List ActionM × Heap
  | 0, h => ([], h)
  | n + 1, h =>
    let p := dupOne a now h
    let q := duplicate a now n p.2
    (p.1 :: q.1, q.2)

/-- Locations of the `i`-th duplicate when allocation starts at
`base`. -/
def dupAt (a : ActionM) (base : Nat) (i : Nat) : ActionM :=
  ⟨base + 6 * i, base + 6 * i + 1, base + 6 * i + 2, base + 6 * i + 3,
    base + 6 * i + 4, base + 6 * i + 5, a.compareFlag⟩

theorem duplicate_fst (a : ActionM) (now : Int) (n : Nat) (h : Heap) :
    (duplicate a now n h).1 = (List.range n).map (dupAt a h.next) := by
  induction n generalizing h with
  | zero => simp [duplicate]
  | succ n ih =>
    rw [duplicate, List.range_succ_eq_map, List.map_cons, List.map_map]
    have hfst : (dupOne a now h).1 = dupAt a h.next 0 := by
      simp [dupOne, dupAt]
    have hnext : (dupOne a now h).2.next = h.next + 6 := rfl
    rw [ih]
    refine congrArg₂ _ hfst ?_
    rw [hnext]
    refine List.map_congr_left ?_
    intro i _
    simp only [Function.comp_apply, dupAt, ActionM.mk.injEq]
    refine ⟨by omega, by omega, by omega, by omega, by omega, by omega, trivial⟩

theorem duplicate_next (a : ActionM) (now : Int) (n : Nat) (h : Heap) :
    (duplicate a now n h).2.next = h.next + 6 * n := by
  induction n generalizing h with
  | zero => simp [duplicate]
  | succ n ih =>
    rw [duplicate]
    have hnext : (dupOne a now h).2.next = h.next + 6 := rfl
    rw [ih, hnext]
    omega

theorem duplicate_mem_old (a : ActionM) (now : Int) (n : Nat) (h : Heap)
    (addr : Nat) (haddr : addr < h.next) :
    (duplicate a now n h).2.mem addr = h.mem addr := by
  induction n generalizing h with
  | zero => simp [duplicate]
  | succ n ih =>
    rw [duplicate]
    have haddr' : addr < (dupOne a now h).2.next := by
      have : (dupOne a now h).2.next = h.next + 6 := rfl
      omega
    rw [ih (dupOne a now h).2 haddr']
    show (if addr = h.next then _
      else if addr = h.next + 1 then _
      else if addr = h.next + 2 then _
      else if addr = h.next + 3 then _
      else if addr = h.next + 4 then _
      else if addr = h.next + 5 then _
      else h.mem addr) = h.mem addr
    rw [if_neg (by omega), if_neg (by omega), if_neg (by omega),
      if_neg (by omega), if_neg (by omega), if_neg (by omega)]

/-- Contents of the freshly allocated cells of the `i`-th duplicate. -/
theorem duplicate_mem_fresh (a : ActionM) (now : Int) (n : Nat) (h : Heap)
    (hc : a.cmdL < h.next) (hf : a.forecastL < h.next) (hr : a.recL < h.next)
    (hro : a.rOptL < h.next) (hlo : a.lOptL < h.next)
    (i : Nat) (hi : i < n) :
    (duplicate a now n h).2.mem (h.next + 6 * i) = h.mem a.cmdL
    ∧ (duplicate a now n h).2.mem (h.next + 6 * i + 1) = h.mem a.forecastL
    ∧ (duplicate a now n h).2.mem (h.next + 6 * i + 2)
        = HVal.recV ⟨(recValOf (h.mem a.recL)).environment,
            (recValOf (h.mem a.recL)).labelsRef, [(eventProxyExecution, now)]⟩
    ∧ (duplicate a now n h).2.mem (h.next + 6 * i + 3) = h.mem a.rOptL
    ∧ (duplicate a now n h).2.mem (h.next + 6 * i + 4) = h.mem a.lOptL
    ∧ (duplicate a now n h).2.mem (h.next + 6 * i + 5) = HVal.oeV ⟨[], []⟩ := by
  induction n generalizing h i with
  | zero => omega
  | succ n ih =>
    rw [duplicate]
    have hnext : (dupOne a now h).2.next = h.next + 6 := rfl
    match i with
    | 0 =>
      have h6 : ∀ k, k < 6 → h.next + k < (dupOne a now h).2.next := by
        intro k hk
        rw [hnext]
        omega
      rw [show h.next + 6 * 0 = h.next + 0 by omega]
      refine ⟨?_, ?_, ?_, ?_, ?_, ?_⟩ <;>
        first
        | (rw [duplicate_mem_old a now n _ _ (h6 0 (by omega))]
           show (if h.next + 0 = h.next then h.mem a.cmdL else _) = _
           rw [if_pos (by omega)])
        | (rw [duplicate_mem_old a now n _ _ (h6 1 (by omega))]
           show (if h.next + 0 + 1 = h.next then _
             else if h.next + 0 + 1 = h.next + 1 then h.mem a.forecastL else _) = _
           rw [if_neg (by omega), if_pos (by omega)])
        | (rw [duplicate_mem_old a now n _ _ (h6 2 (by omega))]
           show (if h.next + 0 + 2 = h.next then _
             else if h.next + 0 + 2 = h.next + 1 then _
             else if h.next + 0 + 2 = h.next + 2 then HVal.recV _ else _) = _
           rw [if_neg (by omega), if_neg (by omega), if_pos (by omega)])
        | (rw [duplicate_mem_old a now n _ _ (h6 3 (by omega))]
           show (if h.next + 0 + 3 = h.next then _
             else if h.next + 0 + 3 = h.next + 1 then _
             else if h.next + 0 + 3 = h.next + 2 then _
             else if h.next + 0 + 3 = h.next + 3 then h.mem a.rOptL else _) = _
           rw [if_neg (by omega), if_neg (by omega), if_neg (by omega),
             if_pos (by omega)])
        | (rw [duplicate_mem_old a now n _ _ (h6 4 (by omega))]
           show (if h.next + 0 + 4 = h.next then _
             else if h.next + 0 + 4 = h.next + 1 then _
             else if h.next + 0 + 4 = h.next + 2 then _
             else if h.next + 0 + 4 = h.next + 3 then _
             else if h.next + 0 + 4 = h.next + 4 then h.mem a.lOptL else _) = _
           rw [if_neg (by omega), if_neg (by omega), if_neg (by omega),
             if_neg (by omega), if_pos (by omega)])
        | (rw [duplicate_mem_old a now n _ _ (h6 5 (by omega))]
           show (if h.next + 0 + 5 = h.next then _
             else if h.next + 0 + 5 = h.next + 1 then _
             else if h.next + 0 + 5 = h.next + 2 then _
             else if h.next + 0 + 5 = h.next + 3 then _
             else if h.next + 0 + 5 = h.next + 4 then _
             else if h.next + 0 + 5 = h.next + 5 then HVal.oeV ⟨[], []⟩ else _) = _
           rw [if_neg (by omega), if_neg (by omega), if_neg (by omega),
             if_neg (by omega), if_neg (by omega), if_pos (by omega)])
    | Nat.succ j =>
      have hwf : a.cmdL < (dupOne a now h).2.next ∧ a.forecastL < (dupOne a now h).2.next
          ∧ a.recL < (dupOne a now h).2.next ∧ a.rOptL < (dupOne a now h).2.next
          ∧ a.lOptL < (dupOne a now h).2.next := by
        rw [hnext]
        omega
      have hj : j < n := by omega
      have ihj := ih (dupOne a now h).2 hwf.1 hwf.2.1 hwf.2.2.1 hwf.2.2.2.1
        hwf.2.2.2.2 j hj
      have hmemc : (dupOne a now h).2.mem a.cmdL = h.mem a.cmdL := by
        show (if a.cmdL = h.next then _ else if a.cmdL = h.next + 1 then _
          else if a.cmdL = h.next + 2 then _ else if a.cmdL = h.next + 3 then _
          else if a.cmdL = h.next + 4 then _ else if a.cmdL = h.next + 5 then _
          else h.mem a.cmdL) = h.mem a.cmdL
        rw [if_neg (by omega), if_neg (by omega), if_neg (by omega),
          if_neg (by omega), if_neg (by omega), if_neg (by omega)]
      have hmemf : (dupOne a now h).2.mem a.forecastL = h.mem a.forecastL := by
        show (if a.forecastL = h.next then _ else if a.forecastL = h.next + 1 then _
          else if a.forecastL = h.next + 2 then _ else if a.forecastL = h.next + 3 then _
          else if a.forecastL = h.next + 4 then _ else if a.forecastL = h.next + 5 then _
          else h.mem a.forecastL) = h.mem a.forecastL
        rw [if_neg (by omega), if_neg (by omega), if_neg (by omega),
          if_neg (by omega), if_neg (by omega), if_neg (by omega)]
      have hmemr : (dupOne a now h).2.mem a.recL = h.mem a.recL := by
        show (if a.recL = h.next then _ else if a.recL = h.next + 1 then _
          else if a.recL = h.next + 2 then _ else if a.recL = h.next + 3 then _
          else if a.recL = h.next + 4 then _ else if a.recL = h.next + 5 then _
          else h.mem a.recL) = h.mem a.recL
        rw [if_neg (by omega), if_neg (by omega), if_neg (by omega),
          if_neg (by omega), if_neg (by omega), if_neg (by omega)]
      have hmemro : (dupOne a now h).2.mem a.rOptL = h.mem a.rOptL := by
        show (if a.rOptL = h.next then _ else if a.rOptL = h.next + 1 then _
          else if a.rOptL = h.next + 2 then _ else if a.rOptL = h.next + 3 then _
          else if a.rOptL = h.next + 4 then _ else if a.rOptL = h.next + 5 then _
          else h.mem a.rOptL) = h.mem a.rOptL
        rw [if_neg (by omega), if_neg (by omega), if_neg (by omega),
          if_neg (by omega), if_neg (by omega), if_neg (by omega)]
      have hmemlo : (dupOne a now h).2.mem a.lOptL = h.mem a.lOptL := by
        show (if a.lOptL = h.next then _ else if a.lOptL = h.next + 1 then _
          else if a.lOptL = h.next + 2 then _ else if a.lOptL = h.next + 3 then _
          else if a.lOptL = h.next + 4 then _ else if a.lOptL = h.next + 5 then _
          else h.mem a.lOptL) = h.mem a.lOptL
        rw [if_neg (by omega), if_neg (by omega), if_neg (by omega),
          if_neg (by omega), if_neg (by omega), if_neg (by omega)]
      rw [hmemc, hmemf, hmemr, hmemro, hmemlo, hnext] at ihj
      have he0 : h.next + 6 + 6 * j = h.next + 6 * (j + 1) := by omega
      rw [he0] at ihj
      exact ihj

theorem getD_map_range {α : Type} (f : Nat → α) (n i : Nat) (hi : i < n) (d : α) :
    ((List.range n).map f).getD i d = f i := by
  rw [List.getD_eq_getElem?_getD, List.getElem?_map, List.getElem?_range hi]
  rfl

/-! ## Claims -/

/-- C1: after the first race outcome, a remote or canceled winner makes
the coordinator wait for the second outcome; canceled-then-local
increments `num_fallbacks` by exactly 1 and promotes local to winner;
remote-then-local promotes local without an increment; a canceled second
outcome leaves the first winner standing.  (Atomicity of the counter
increment is a concurrency property outside the scope of this pure
embedding; the increment amount and conditions are verified.) -/
theorem race_drain_spec (nf : Int) (w rr : raceResult) (m : Option GoError) :
    ((w.t = resultType.remote ∨ w.t = resultType.canceled) →
      (race nf (raceEvent.outcome w) (raceEvent.outcome rr) m).consumedSecond = true)
    ∧ (w.t = resultType.canceled → rr.t = resultType.localExec →
      (race nf (raceEvent.outcome w) (raceEvent.outcome rr) m).numFallbacks = nf + 1
      ∧ (race nf (raceEvent.outcome w) (raceEvent.outcome rr) m).winner = some rr)
    ∧ (w.t = resultType.remote → rr.t = resultType.localExec →
      (race nf (raceEvent.outcome w) (raceEvent.outcome rr) m).numFallbacks = nf
      ∧ (race nf (raceEvent.outcome w) (raceEvent.outcome rr) m).winner = some rr)
    ∧ ((w.t = resultType.remote ∨ w.t = resultType.canceled) →
      rr.t = resultType.canceled →
      (race nf (raceEvent.outcome w) (raceEvent.outcome rr) m).winner = some w
      ∧ (race nf (raceEvent.outcome w) (raceEvent.outcome rr) m).numFallbacks = nf) := by
  rcases w with ⟨wres, woe, wt⟩
  rcases rr with ⟨rres, roe, rt⟩
  cases wt <;> cases rt <;> cases m <;>
    simp [race, finalizeRace]

theorem race_drain_spec_witness :
    (race 0 (raceEvent.outcome ⟨none, none, resultType.canceled⟩)
        (raceEvent.outcome
          ⟨some (NewResultFromExitCode 0), some 1, resultType.localExec⟩)
        none).numFallbacks = 0 + 1
    ∧ (race 0 (raceEvent.outcome ⟨none, none, resultType.canceled⟩)
        (raceEvent.outcome
          ⟨some (NewResultFromExitCode 0), some 1, resultType.localExec⟩)
        none).winner
      = some ⟨some (NewResultFromExitCode 0), some 1, resultType.localExec⟩ :=
  (race_drain_spec 0 ⟨none, none, resultType.canceled⟩
    ⟨some (NewResultFromExitCode 0), some 1, resultType.localExec⟩ none).2.1 rfl rfl

/-- C2: the cache-hit holdoff is the forecasted P90 download latency in
whole milliseconds times `2 * racing_bias` (the float-to-duration
conversion truncating toward zero), clamped to `max_holdoff`; bias 0.5
gives exactly the whole-millisecond P90 forecast (clamped), bias 0 gives
a zero holdoff, bias 1 gives twice the forecast (clamped), and a forecast
error substitutes `max_holdoff` for the forecast. -/
theorem holdoff_claim (dl mh : Int) (bias : ℚ) (hmh : 0 ≤ mh) :
    raceHoldoff (Except.ok dl) mh bias
      = min (ratTrunc ((goMilliseconds dl : ℚ) * (bias * 2)) * 1000000) mh
    ∧ raceHoldoff (Except.ok dl) mh (1 / 2) = min (goMilliseconds dl * 1000000) mh
    ∧ raceHoldoff (Except.ok dl) mh 0 = 0
    ∧ raceHoldoff (Except.ok dl) mh 1 = min (goMilliseconds dl * 2 * 1000000) mh
    ∧ ∀ e : GoError, raceHoldoff (Except.error e) mh bias
        = min (ratTrunc ((goMilliseconds mh : ℚ) * (bias * 2)) * 1000000) mh := by
  refine ⟨raceHoldoff_ok dl mh bias, ?_, ?_, ?_, fun e => raceHoldoff_err e mh bias⟩
  · rw [raceHoldoff_ok]
    have h1 : ((1 : ℚ) / 2) * 2 = 1 := by norm_num
    rw [h1, mul_one, ratTrunc_intCast]
  · rw [raceHoldoff_ok]
    have h0 : ((goMilliseconds dl : ℚ)) * ((0 : ℚ) * 2) = ((0 : ℤ) : ℚ) := by
      norm_num
    rw [h0, ratTrunc_intCast]
    simpa using hmh
  · rw [raceHoldoff_ok]
    have h2 : ((goMilliseconds dl : ℚ)) * ((1 : ℚ) * 2)
        = ((goMilliseconds dl * 2 : ℤ) : ℚ) := by
      push_cast
      ring
    rw [h2, ratTrunc_intCast]

theorem holdoff_claim_witness :
    raceHoldoff (Except.ok 100000000) 1000000000 (1 / 2)
      = min (goMilliseconds 100000000 * 1000000) 1000000000
    ∧ raceHoldoff (Except.ok 100000000) 1000000000 0 = 0
    ∧ raceHoldoff (Except.ok 100000000) 1000000000 1
      = min (goMilliseconds 100000000 * 2 * 1000000) 1000000000 :=
  ⟨(holdoff_claim 100000000 1000000000 (1 / 2) (by decide)).2.1,
   (holdoff_claim 100000000 1000000000 (1 / 2) (by decide)).2.2.1,
   (holdoff_claim 100000000 1000000000 (1 / 2) (by decide)).2.2.2.1⟩

theorem cachedResultValid_iff (dFile : String) (vOk : Bool) (vErr : Option GoError) :
    cachedResultValid dFile vOk vErr = true
      ↔ (dFile = "" ∨ (vErr = none ∧ vOk = true)) := by
  rw [cachedResultValid]
  by_cases hd : dFile = ""
  · simp [hd]
  · cases vErr <;> simp [hd]

/-- C3: an ok remote cache hit is a valid cache hit exactly when no
dependency file was stored or deps-file verification succeeds without
error; otherwise the result becomes a (not-ok) local-error, and
`ValidCacheHit` stays unset so the action falls through to execution. -/
theorem cached_result_claim (r : Result) (dFile : String) (vOk : Bool)
    (vErr : Option GoError) (hok : r.isOk = true) :
    ((getCachedResult (some r) dFile vOk vErr).validCacheHit = true
      ↔ (dFile = "" ∨ (vErr = none ∧ vOk = true)))
    ∧ (¬(dFile = "" ∨ (vErr = none ∧ vOk = true)) →
      (getCachedResult (some r) dFile vOk vErr).res
          = some (NewLocalErrorResult depsValidationError)
      ∧ (getCachedResult (some r) dFile vOk vErr).validCacheHit = false)
    ∧ (NewLocalErrorResult depsValidationError).isOk = false
    ∧ (getCachedResult (some r) dFile vOk vErr).cacheHit = true := by
  have hval := cachedResultValid_iff dFile vOk vErr
  by_cases hv : cachedResultValid dFile vOk vErr = true
  · have hred : getCachedResult (some r) dFile vOk vErr = ⟨some r, true, true⟩ := by
      simp [getCachedResult, hok, hv]
    refine ⟨?_, ?_, rfl, ?_⟩
    · rw [hred]
      exact ⟨fun _ => hval.mp hv, fun _ => rfl⟩
    · intro hcond
      exact (hcond (hval.mp hv)).elim
    · rw [hred]
  · have hv' : cachedResultValid dFile vOk vErr = false := by
      revert hv
      cases cachedResultValid dFile vOk vErr <;> simp
    have hred : getCachedResult (some r) dFile vOk vErr
        = ⟨some (NewLocalErrorResult depsValidationError), true, false⟩ := by
      simp [getCachedResult, hok, hv']
    refine ⟨?_, ?_, rfl, ?_⟩
    · rw [hred]
      exact ⟨fun hfalse => (Bool.false_ne_true hfalse).elim,
        fun hcond => (hv (hval.mpr hcond)).elim⟩
    · intro _
      rw [hred]
      exact ⟨rfl, rfl⟩
    · rw [hred]

theorem cached_result_claim_witness :
    ((getCachedResult (some ⟨0, ResultStatus.success, none⟩) "d" false none).validCacheHit
      = true ↔ (("d" : String) = "" ∨ ((none : Option GoError) = none ∧ false = true)))
    ∧ (¬(("d" : String) = "" ∨ ((none : Option GoError) = none ∧ false = true)) →
      (getCachedResult (some ⟨0, ResultStatus.success, none⟩) "d" false none).res
          = some (NewLocalErrorResult depsValidationError)
      ∧ (getCachedResult (some ⟨0, ResultStatus.success, none⟩) "d" false none).validCacheHit
          = false)
    ∧ (NewLocalErrorResult depsValidationError).isOk = false
    ∧ (getCachedResult (some ⟨0, ResultStatus.success, none⟩) "d" false none).cacheHit
        = true :=
  cached_result_claim ⟨0, ResultStatus.success, none⟩ "d" false none (by decide)

/-- C4: when the remote attempt's result is not ok — after
`GetCachedResult` on a hit, after `ExecuteRemotely` on a miss (with the
sibling scope still live), or after `DownloadOutputs` — the remote path
returns a `canceled` outcome carrying that failing result; and with a
`canceled` first outcome the coordinator consumes a second event before
producing the action's final state (on parent cancellation the sibling
scope, and with it the local attempt, is cancelled). -/
theorem remote_failure_claim (env : remoteRaceEnv) (hc : env.newContextErr = none) :
    (env.cachedResult = none → env.cCtxDoneAfterExec = false →
      env.execResult.isOk = false →
      runRemoteRace env = ⟨some env.execResult, none, resultType.canceled⟩)
    ∧ (∀ r, env.cachedResult = some r → r.isOk = false →
      runRemoteRace env = ⟨some r, none, resultType.canceled⟩)
    ∧ (∀ res0 : Result, res0.isOk = true → env.cCtxDoneAfterDownload = false →
      env.downloadResult.isOk = false →
      remoteRaceAfterRes res0 env
        = ⟨some env.downloadResult, some env.oeSink, resultType.canceled⟩)
    ∧ (∀ rr : raceResult, rr.t = resultType.canceled →
      ∀ nf e2 m, (race nf (raceEvent.outcome rr) e2 m).consumedSecond = true) := by
  refine ⟨?_, ?_, ?_, ?_⟩
  · intro hmiss hdone hbad
    rw [runRemoteRace]
    rw [hc, hmiss]
    simp [hdone, remoteRaceAfterRes, hbad]
  · intro r hhit hbad
    rw [runRemoteRace]
    rw [hc, hhit]
    simp [remoteRaceAfterRes, hbad]
  · intro res0 hok hdone hbad
    simp [remoteRaceAfterRes, hok, hdone, hbad]
  · intro rr hcanc nf e2 m
    rcases rr with ⟨rres, roe, rt⟩
    cases rt with
    | canceled =>
      cases e2 with
      | parentDone e => rfl
      | outcome rr2 =>
        rcases rr2 with ⟨r2, o2, t2⟩
        cases t2 <;> cases m <;> simp [race, finalizeRace]
    | remote => exact absurd hcanc (by simp)
    | localExec => exact absurd hcanc (by simp)

theorem remote_failure_claim_witness :
    runRemoteRace
      ⟨none, none, ⟨1, ResultStatus.remoteError, some (GoError.other 2)⟩,
        false, false, ⟨0, ResultStatus.success, none⟩, 0⟩
      = ⟨some ⟨1, ResultStatus.remoteError, some (GoError.other 2)⟩, none,
          resultType.canceled⟩
    ∧ (race 5
        (raceEvent.outcome
          ⟨some ⟨1, ResultStatus.remoteError, some (GoError.other 2)⟩, none,
            resultType.canceled⟩)
        (raceEvent.outcome ⟨some (NewResultFromExitCode 0), some 1,
          resultType.localExec⟩) none).consumedSecond = true :=
  ⟨(remote_failure_claim
      ⟨none, none, ⟨1, ResultStatus.remoteError, some (GoError.other 2)⟩,
        false, false, ⟨0, ResultStatus.success, none⟩, 0⟩ rfl).1 rfl rfl rfl,
   (remote_failure_claim
      ⟨none, none, ⟨1, ResultStatus.remoteError, some (GoError.other 2)⟩,
        false, false, ⟨0, ResultStatus.success, none⟩, 0⟩ rfl).2.2.2
      ⟨some ⟨1, ResultStatus.remoteError, some (GoError.other 2)⟩, none,
        resultType.canceled⟩ rfl 5
      (raceEvent.outcome ⟨some (NewResultFromExitCode 0), some 1,
        resultType.localExec⟩) none⟩

/-- C5: a parent-scope cancellation observed while waiting for the first
winner, or while draining the second outcome after a remote or canceled
first winner, makes the action's result a local-error carrying the
cancellation cause. -/
theorem parent_cancel_claim (nf : Int) (e : GoError) (e2 : raceEvent)
    (w : raceResult) (m : Option GoError)
    (hw : w.t = resultType.remote ∨ w.t = resultType.canceled) :
    (race nf (raceEvent.parentDone e) e2 m).res = some (NewLocalErrorResult e)
    ∧ (race nf (raceEvent.outcome w) (raceEvent.parentDone e) m).res
        = some (NewLocalErrorResult e) := by
  constructor
  · rfl
  · rw [race, if_pos hw]

theorem parent_cancel_claim_witness :
    (race 0 (raceEvent.parentDone (GoError.other 3))
        (raceEvent.outcome ⟨none, none, resultType.remote⟩) none).res
      = some (NewLocalErrorResult (GoError.other 3))
    ∧ (race 0 (raceEvent.outcome ⟨none, none, resultType.remote⟩)
        (raceEvent.parentDone (GoError.other 3)) none).res
      = some (NewLocalErrorResult (GoError.other 3)) :=
  parent_cancel_claim 0 (GoError.other 3)
    (raceEvent.outcome ⟨none, none, resultType.remote⟩)
    ⟨none, none, resultType.remote⟩ none (Or.inl rfl)

/-- C6: evaluation of `restoreUnchangedOutputMtimes` at the failing
input.  Two outputs `o1` and `o2` are both unchanged (pre-exec digests 7
and 9 equal the post-exec digests) and `os.Chtimes` fails only on `o1`:
the code returns `nil` from inside the loop, so the action does not fail
(no error), but `o2`'s mtime is left at its on-disk value 0 instead of
being restored to its pre-exec value 200, and `o2`'s file-metadata cache
entry is not updated — contradicting the claim that a restoration
failure affects only the failing output. -/
theorem restore_mtime_bug :
    (restoreUnchangedOutputMtimes
        [("o1", ⟨7, 100, false⟩), ("o2", ⟨9, 200, false⟩)]
        (Except.ok [("o1", 7), ("o2", 9)])
        (fun p => p == "o1") (fun _ => false)
        (fun _ => 0) (fun _ => ⟨0, 0, false⟩)).2.2 = none
    ∧ (restoreUnchangedOutputMtimes
        [("o1", ⟨7, 100, false⟩), ("o2", ⟨9, 200, false⟩)]
        (Except.ok [("o1", 7), ("o2", 9)])
        (fun p => p == "o1") (fun _ => false)
        (fun _ => 0) (fun _ => ⟨0, 0, false⟩)).1 "o2" = 0
    ∧ ¬((restoreUnchangedOutputMtimes
        [("o1", ⟨7, 100, false⟩), ("o2", ⟨9, 200, false⟩)]
        (Except.ok [("o1", 7), ("o2", 9)])
        (fun p => p == "o1") (fun _ => false)
        (fun _ => 0) (fun _ => ⟨0, 0, false⟩)).1 "o2" = 200)
    ∧ (restoreUnchangedOutputMtimes
        [("o1", ⟨7, 100, false⟩), ("o2", ⟨9, 200, false⟩)]
        (Except.ok [("o1", 7), ("o2", 9)])
        (fun p => p == "o1") (fun _ => false)
        (fun _ => 0) (fun _ => ⟨0, 0, false⟩)).2.1 "o2" = ⟨0, 0, false⟩ := by
  refine ⟨rfl, rfl, by decide, rfl⟩

/-- C7 counterexample: on the POSIX build, `os.IsPathSeparator` accepts
only `/`, so the backslash in `a/b\c` is not counted and `depth` returns
2, not the 3 the claim states for every build. -/
theorem depth_posix_counterexample :
    depth false "a/b\\c" = 2 ∧ ¬(depth false "a/b\\c" = 3) := by
  refine ⟨by decide, by decide⟩

/-- C7 (amended): `depth` returns 0 for the empty string and otherwise 1
plus the number of host-OS separator characters — on Windows builds both
`/` and `\` count, on POSIX builds only `/` — so `depth("") = 0`,
`depth("/") = 2` on either build, and `depth("a/b\c")` is 3 on Windows
but 2 on POSIX. -/
theorem depth_spec (win : Bool) (path : String) :
    depth win "" = 0
    ∧ (path ≠ "" → depth win path = 1 + path.data.countP (isPathSep win))
    ∧ (∀ c, isPathSep true c = (c = '/' || c = '\\'))
    ∧ (∀ c, isPathSep false c = (decide (c = '/')))
    ∧ depth win "/" = 2
    ∧ depth true "a/b\\c" = 3
    ∧ depth false "a/b\\c" = 2 := by
  refine ⟨by cases win <;> decide, depth_eq_one_add_countP win path, ?_, ?_,
    by cases win <;> decide, by decide, by decide⟩
  · intro c
    simp [isPathSep]
  · intro c
    simp [isPathSep]

theorem depth_spec_witness :
    depth false "x/y" = 1 + ("x/y".data.countP (isPathSep false)) :=
  (depth_spec false "x/y").2.1 (by decide)

/-- C8: `toRemoteWorkingDir` maps the empty string and `.` to
themselves; every other input maps to a path splitting into a first
segment `set_by_reclient` followed by `a` segments, one segment per unit
of the cleaned input's depth, so segment count is preserved (POSIX-build
model: `/`-separated segments, `depth false`). -/
theorem toRemoteWorkingDir_claim (w : String) :
    toRemoteWorkingDir "" = ""
    ∧ toRemoteWorkingDir "." = "."
    ∧ (w ≠ "" → w ≠ "." →
      splitSegs (toRemoteWorkingDir w).data
        = "set_by_reclient".data
            :: List.replicate (depth false (cleanPath w) - 1) ['a']
      ∧ depth false (toRemoteWorkingDir w) = depth false (cleanPath w)) := by
  refine ⟨by decide, by decide, ?_⟩
  intro h1 h2
  have hno : ¬(w = "" ∨ w = ".") := by
    rintro (h | h)
    · exact h1 h
    · exact h2 h
  rw [toRemoteWorkingDir_closed_form w hno]
  constructor
  · show splitSegs ("set_by_reclient".data
      ++ slashA (depth false (cleanPath w) - 1)) = _
    exact splitSegs_append_slashA _ _ sbr_no_sep
  · rw [depth_canonical]
    have := depth_cleanPath_pos w
    omega

theorem toRemoteWorkingDir_claim_witness :
    splitSegs (toRemoteWorkingDir "a/b").data
      = "set_by_reclient".data
          :: List.replicate (depth false (cleanPath "a/b") - 1) ['a']
    ∧ depth false (toRemoteWorkingDir "a/b") = depth false (cleanPath "a/b") :=
  (toRemoteWorkingDir_claim "a/b").2.2 (by decide) (by decide)

/-- C9: `duplicate` returns `n` actions whose log-record, output-sink and
option-message pointers are pairwise distinct fresh cells, the option,
command and forecast cells holding value copies of the originals, the
record cell a fresh record seeded from the original, and the sink cell a
fresh empty sink — so writing through one duplicate's record, sink or
option pointer does not change the cell any other duplicate's
corresponding pointer reads. -/
theorem duplicate_claim (a : ActionM) (now : Int) (n : Nat) (h : Heap)
    (hc : a.cmdL < h.next) (hf : a.forecastL < h.next) (hr : a.recL < h.next)
    (hro : a.rOptL < h.next) (hlo : a.lOptL < h.next)
    (i j : Nat) (hi : i < n) (hj : j < n) (hij : i ≠ j) (v : HVal) :
    (duplicate a now n h).1.length = n
    ∧ ((duplicate a now n h).1.getD i a).recL ≠ ((duplicate a now n h).1.getD j a).recL
    ∧ ((duplicate a now n h).1.getD i a).oeL ≠ ((duplicate a now n h).1.getD j a).oeL
    ∧ ((duplicate a now n h).1.getD i a).rOptL ≠ ((duplicate a now n h).1.getD j a).rOptL
    ∧ ((duplicate a now n h).1.getD i a).lOptL ≠ ((duplicate a now n h).1.getD j a).lOptL
    ∧ (duplicate a now n h).2.mem ((duplicate a now n h).1.getD i a).cmdL = h.mem a.cmdL
    ∧ (duplicate a now n h).2.mem ((duplicate a now n h).1.getD i a).forecastL
        = h.mem a.forecastL
    ∧ (duplicate a now n h).2.mem ((duplicate a now n h).1.getD i a).rOptL = h.mem a.rOptL
    ∧ (duplicate a now n h).2.mem ((duplicate a now n h).1.getD i a).lOptL = h.mem a.lOptL
    ∧ (duplicate a now n h).2.mem ((duplicate a now n h).1.getD i a).recL
        = HVal.recV ⟨(recValOf (h.mem a.recL)).environment,
            (recValOf (h.mem a.recL)).labelsRef, [(eventProxyExecution, now)]⟩
    ∧ (duplicate a now n h).2.mem ((duplicate a now n h).1.getD i a).oeL
        = HVal.oeV ⟨[], []⟩
    ∧ ((duplicate a now n h).2.write ((duplicate a now n h).1.getD i a).recL v).mem
        ((duplicate a now n h).1.getD j a).recL
        = (duplicate a now n h).2.mem ((duplicate a now n h).1.getD j a).recL
    ∧ ((duplicate a now n h).2.write ((duplicate a now n h).1.getD i a).oeL v).mem
        ((duplicate a now n h).1.getD j a).oeL
        = (duplicate a now n h).2.mem ((duplicate a now n h).1.getD j a).oeL
    ∧ ((duplicate a now n h).2.write ((duplicate a now n h).1.getD i a).rOptL v).mem
        ((duplicate a now n h).1.getD j a).rOptL
        = (duplicate a now n h).2.mem ((duplicate a now n h).1.getD j a).rOptL
    ∧ ((duplicate a now n h).2.write ((duplicate a now n h).1.getD i a).lOptL v).mem
        ((duplicate a now n h).1.getD j a).lOptL
        = (duplicate a now n h).2.mem ((duplicate a now n h).1.getD j a).lOptL := by
  have hfst := duplicate_fst a now n h
  have hgi : (duplicate a now n h).1.getD i a = dupAt a h.next i := by
    rw [hfst]
    exact getD_map_range _ _ _ hi _
  have hgj : (duplicate a now n h).1.getD j a = dupAt a h.next j := by
    rw [hfst]
    exact getD_map_range _ _ _ hj _
  have hfresh := duplicate_mem_fresh a now n h hc hf hr hro hlo i hi
  refine ⟨?_, ?_, ?_, ?_, ?_, ?_, ?_, ?_, ?_, ?_, ?_, ?_, ?_, ?_, ?_⟩
  · rw [hfst, List.length_map, List.length_range]
  · rw [hgi, hgj]
    show h.next + 6 * i + 2 ≠ h.next + 6 * j + 2
    omega
  · rw [hgi, hgj]
    show h.next + 6 * i + 5 ≠ h.next + 6 * j + 5
    omega
  · rw [hgi, hgj]
    show h.next + 6 * i + 3 ≠ h.next + 6 * j + 3
    omega
  · rw [hgi, hgj]
    show h.next + 6 * i + 4 ≠ h.next + 6 * j + 4
    omega
  · rw [hgi]
    exact hfresh.1
  · rw [hgi]
    exact hfresh.2.1
  · rw [hgi]
    exact hfresh.2.2.2.1
  · rw [hgi]
    exact hfresh.2.2.2.2.1
  · rw [hgi]
    exact hfresh.2.2.1
  · rw [hgi]
    exact hfresh.2.2.2.2.2
  · rw [hgi, hgj]
    show (if h.next + 6 * j + 2 = h.next + 6 * i + 2 then v else _) = _
    rw [if_neg (by omega)]
  · rw [hgi, hgj]
    show (if h.next + 6 * j + 5 = h.next + 6 * i + 5 then v else _) = _
    rw [if_neg (by omega)]
  · rw [hgi, hgj]
    show (if h.next + 6 * j + 3 = h.next + 6 * i + 3 then v else _) = _
    rw [if_neg (by omega)]
  · rw [hgi, hgj]
    show (if h.next + 6 * j + 4 = h.next + 6 * i + 4 then v else _) = _
    rw [if_neg (by omega)]

theorem duplicate_claim_witness :
    ((duplicate ⟨0, 1, 2, 3, 4, 5, false⟩ 0 2 ⟨6, fun _ => HVal.undef⟩).1.getD 0
        ⟨0, 1, 2, 3, 4, 5, false⟩).recL
      ≠ ((duplicate ⟨0, 1, 2, 3, 4, 5, false⟩ 0 2 ⟨6, fun _ => HVal.undef⟩).1.getD 1
        ⟨0, 1, 2, 3, 4, 5, false⟩).recL
    ∧ ((duplicate ⟨0, 1, 2, 3, 4, 5, false⟩ 0 2 ⟨6, fun _ => HVal.undef⟩).2.write
        ((duplicate ⟨0, 1, 2, 3, 4, 5, false⟩ 0 2 ⟨6, fun _ => HVal.undef⟩).1.getD 0
          ⟨0, 1, 2, 3, 4, 5, false⟩).recL (HVal.recV ⟨["x"], 9, []⟩)).mem
        ((duplicate ⟨0, 1, 2, 3, 4, 5, false⟩ 0 2 ⟨6, fun _ => HVal.undef⟩).1.getD 1
          ⟨0, 1, 2, 3, 4, 5, false⟩).recL
      = (duplicate ⟨0, 1, 2, 3, 4, 5, false⟩ 0 2 ⟨6, fun _ => HVal.undef⟩).2.mem
        ((duplicate ⟨0, 1, 2, 3, 4, 5, false⟩ 0 2 ⟨6, fun _ => HVal.undef⟩).1.getD 1
          ⟨0, 1, 2, 3, 4, 5, false⟩).recL :=
  ⟨(duplicate_claim ⟨0, 1, 2, 3, 4, 5, false⟩ 0 2 ⟨6, fun _ => HVal.undef⟩
      (by decide) (by decide) (by decide) (by decide) (by decide)
      0 1 (by decide) (by decide) (by decide) (HVal.recV ⟨["x"], 9, []⟩)).2.1,
   (duplicate_claim ⟨0, 1, 2, 3, 4, 5, false⟩ 0 2 ⟨6, fun _ => HVal.undef⟩
      (by decide) (by decide) (by decide) (by decide) (by decide)
      0 1 (by decide) (by decide) (by decide) (HVal.recV ⟨["x"], 9, []⟩)).2.2.2.2.2.2.2.2.2.2.2.1⟩

/-- C10: a local pool run returning exit code 0 together with a non-nil,
non-cancellation error yields a `canceled` outcome carrying a local-error
result built from that error; neither `a.res` nor `ExecutedLocally` is
touched, and in the drain a prior remote winner stays the winner with no
fallback increment. -/
theorem local_pool_error_claim (prevRes : Option Result) (prevEL : Bool)
    (e : GoError) (oeSink : Nat) (he : e ≠ GoError.ctxCanceled) :
    (runLocalRace prevRes prevEL 0 (some e) oeSink).rr
        = ⟨some (NewLocalErrorResult e), none, resultType.canceled⟩
    ∧ (runLocalRace prevRes prevEL 0 (some e) oeSink).executedLocally = prevEL
    ∧ (runLocalRace prevRes prevEL 0 (some e) oeSink).res = prevRes
    ∧ ∀ (w : raceResult), w.t = resultType.remote → ∀ nf m,
      (race nf (raceEvent.outcome w)
        (raceEvent.outcome (runLocalRace prevRes prevEL 0 (some e) oeSink).rr) m).winner
        = some w
      ∧ (race nf (raceEvent.outcome w)
        (raceEvent.outcome (runLocalRace prevRes prevEL 0 (some e) oeSink).rr)
          m).numFallbacks = nf := by
  have hne : ¬(some e = some GoError.ctxCanceled) := fun hcontra =>
    he (Option.some.inj hcontra)
  have hrun : runLocalRace prevRes prevEL 0 (some e) oeSink
      = ⟨⟨some (NewLocalErrorResult e), none, resultType.canceled⟩, prevRes, prevEL⟩ := by
    rw [runLocalRace, if_neg hne]
    rw [if_pos rfl]
  refine ⟨by rw [hrun], by rw [hrun], by rw [hrun], ?_⟩
  intro w hw nf m
  rw [hrun]
  rcases w with ⟨wres, woe, wt⟩
  cases wt with
  | remote => cases m <;> simp [race, finalizeRace]
  | localExec => exact absurd hw (by simp)
  | canceled => exact absurd hw (by simp)

theorem local_pool_error_claim_witness :
    (runLocalRace none false 0 (some (GoError.other 5)) 0).rr
        = ⟨some (NewLocalErrorResult (GoError.other 5)), none, resultType.canceled⟩
    ∧ (runLocalRace none false 0 (some (GoError.other 5)) 0).executedLocally = false
    ∧ (runLocalRace none false 0 (some (GoError.other 5)) 0).res = none :=
  ⟨(local_pool_error_claim none false (GoError.other 5) 0 (by decide)).1,
   (local_pool_error_claim none false (GoError.other 5) 0 (by decide)).2.1,
   (local_pool_error_claim none false (GoError.other 5) 0 (by decide)).2.2.1⟩

end Reclient
